import Mathlib

/-!
Shallow embedding of the Relevant Segment Extraction segment selector
(`find_best_segments` in `09_rse.ipynb`).

Chunk values are modelled as rationals (the spec's "real numbers"), the two
length parameters as integers (Python `int`), and the `while` loop as a
fuel-indexed structural recursion: the loop can run at most
`total_max_length.toNat` productive rounds (each accepted segment has length
at least 1 and a round only starts while the covered length is below
`total_max_length`), so `total_max_length.toNat + 1` units of fuel are enough;
a stabilisation theorem below proves that adding more fuel never changes the
result, which is exactly the termination of the original `while` loop.
-/

set_option maxRecDepth 8000
set_option allowUnsafeReducibility true
attribute [local semireducible] Rat.add Rat.mul Rat.inv Rat.sub

/-- Python `sum(chunk_values[start:end])`: sum of the half-open, clipped slice. -/
def segSum (values : List ℚ) (start stop : Nat) : ℚ :=
  ((values.drop start).take (stop - start)).sum

/-- Python `any(start >= s[0] and start < s[1] for s in best_segments)`:
the candidate start position lies inside an already selected segment. -/
def startInside (start : Nat) (segs : List (Nat × Nat)) : Bool :=
  segs.any (fun s => decide (s.1 ≤ start) && decide (start < s.2))

/-- Python `any(end > s[0] and end <= s[1] for s in best_segments)`:
the candidate end position lies inside (or at the right boundary of) an
already selected segment. -/
def endInside (e : Nat) (segs : List (Nat × Nat)) : Bool :=
  segs.any (fun s => decide (s.1 < e) && decide (e ≤ s.2))

/-- The inner `for length in range(1, min(max_segment_length, len(chunk_values) - start) + 1)`
loop for one fixed `start`, folded over the running `(best_score, best_segment)`
accumulator. -/
def scanStart (values : List ℚ) (max_segment_length : Int)
    (selected : List (Nat × Nat)) (start : Nat)
    (acc : ℚ × Option (Nat × Nat)) : ℚ × Option (Nat × Nat) :=
  (List.range' 1 (min max_segment_length ((values.length : Int) - start)).toNat).foldl
    (fun acc len =>
      let e := start + len
      if endInside e selected then acc
      else
        let v := segSum values start e
        if acc.1 < v then (v, some (start, e)) else acc)
    acc

/-- One greedy round: `for start in range(len(chunk_values))`, skipping starts
inside selected segments, starting from `best_score = min_segment_value`,
`best_segment = None`. -/
def scanRound (values : List ℚ) (max_segment_length : Int) (min_segment_value : ℚ)
    (selected : List (Nat × Nat)) : ℚ × Option (Nat × Nat) :=
  (List.range values.length).foldl
    (fun acc start =>
      if startInside start selected then acc
      else scanStart values max_segment_length selected start acc)
    (min_segment_value, none)

/-- The `while total_included_chunks < total_max_length` loop of
`find_best_segments`, carrying the selected segments (discovery order), their
recorded scores, and the running covered length, indexed by fuel. -/
def selectLoop (values : List ℚ) (max_segment_length total_max_length : Int)
    (min_segment_value : ℚ) :
    Nat → List (Nat × Nat) → List ℚ → Nat → List (Nat × Nat) × List ℚ
  | 0, selected, scores, _ => (selected, scores)
  | fuel + 1, selected, scores, total =>
    if (total : Int) < total_max_length then
      match scanRound values max_segment_length min_segment_value selected with
      | (_, none) => (selected, scores)
      | (sc, some c) =>
          selectLoop values max_segment_length total_max_length min_segment_value
            fuel (selected ++ [c]) (scores ++ [sc]) (total + (c.2 - c.1))
    else (selected, scores)

/-- `find_best_segments(chunk_values, max_segment_length, total_max_length,
min_segment_value)`: run the greedy loop from the empty state, then return the
selected segments sorted by start position (Python's stable `sorted` with
`key=lambda x: x[0]`; stable insertion sort is extensionally identical here
since all selected start positions are distinct) paired with the scores list
in discovery order. -/
def find_best_segments (chunk_values : List ℚ)
    (max_segment_length total_max_length : Int) (min_segment_value : ℚ) :
    List (Nat × Nat) × List ℚ :=
  let r := selectLoop chunk_values max_segment_length total_max_length
    min_segment_value (total_max_length.toNat + 1) [] [] 0
  (r.1.insertionSort (fun a b => a.1 ≤ b.1), r.2)

/-- The greedy loop run from the initial empty state: segments in discovery
order paired with their recorded scores, before the final sort. -/
def discovered (chunk_values : List ℚ) (max_segment_length total_max_length : Int)
    (min_segment_value : ℚ) : List (Nat × Nat) × List ℚ :=
  selectLoop chunk_values max_segment_length total_max_length min_segment_value
    (total_max_length.toNat + 1) [] [] 0

/-- Modelled from the spec: the error contract of §7 ("the selector
raises/returns a distinguishable failure only for `InvalidArgument`"); the
notebook itself exposes no failure channel. -/
inductive SelectorError : Type where
  | invalidArgument

/-- Modelled from the spec: §7 demands that non-positive `max_segment_length`
or `total_max_length` "fail fast" with an `InvalidArgument` failure, all other
inputs giving the selector's normal result. This definition follows the
spec's words and exists only to be compared with `find_best_segments`, which
is translated from the source. -/
def select_segments_spec (chunk_values : List ℚ)
    (max_segment_length total_max_length : Int) (min_segment_value : ℚ) :
    Except SelectorError (List (Nat × Nat) × List ℚ) :=
  if max_segment_length ≤ 0 ∨ total_max_length ≤ 0 then
    Except.error SelectorError.invalidArgument
  else
    Except.ok (find_best_segments chunk_values max_segment_length total_max_length
      min_segment_value)

/-! ### Properties of a single greedy round -/

/-- Everything the source guarantees about the candidate held in the round
accumulator: a nonempty in-bounds window of length at most
`max_segment_length`, whose endpoints pass the two overlap filters against
the already selected segments, and whose recorded score is its value sum,
strictly above the floor. -/
def candOK (values : List ℚ) (msl : Int) (minv : ℚ)
    (selected : List (Nat × Nat)) (sc : ℚ) (c : Nat × Nat) : Prop :=
  c.1 < c.2 ∧ c.2 ≤ values.length ∧ ((c.2 : Int) - (c.1 : Int)) ≤ msl ∧
  startInside c.1 selected = false ∧ endInside c.2 selected = false ∧
  sc = segSum values c.1 c.2 ∧ minv < sc

/-- Invariant of the `(best_score, best_segment)` accumulator of one round. -/
def accOK (values : List ℚ) (msl : Int) (minv : ℚ)
    (selected : List (Nat × Nat)) (acc : ℚ × Option (Nat × Nat)) : Prop :=
  minv ≤ acc.1 ∧ ∀ c, acc.2 = some c → candOK values msl minv selected acc.1 c

lemma scanStart_accOK (values : List ℚ) (msl : Int) (minv : ℚ)
    (selected : List (Nat × Nat)) (start : Nat) (acc : ℚ × Option (Nat × Nat))
    (hs : startInside start selected = false) (hlt : start < values.length)
    (h : accOK values msl minv selected acc) :
    accOK values msl minv selected (scanStart values msl selected start acc) := by
  unfold scanStart
  refine List.foldlRecOn _ _ _ h ?_
  intro b hb len hlen
  rw [List.mem_range'_1] at hlen
  obtain ⟨h1, h2⟩ := hlen
  by_cases he : endInside (start + len) selected
  · simpa [he] using hb
  · have he' : endInside (start + len) selected = false := by
      simpa using he
    by_cases hv : b.1 < segSum values start (start + len)
    · simp only [he', Bool.false_eq_true, if_false, hv, if_true]
      refine ⟨le_of_lt (lt_of_le_of_lt hb.1 hv), ?_⟩
      intro c hc
      injection hc with hc
      subst hc
      refine ⟨by omega, by omega, by omega, hs, he', rfl,
        lt_of_le_of_lt hb.1 hv⟩
    · simpa [he', hv] using hb

lemma scanRound_accOK (values : List ℚ) (msl : Int) (minv : ℚ)
    (selected : List (Nat × Nat)) :
    accOK values msl minv selected (scanRound values msl minv selected) := by
  unfold scanRound
  refine List.foldlRecOn _ _ _ ⟨le_refl _, fun c hc => by cases hc⟩ ?_
  intro b hb start hstart
  by_cases h : startInside start selected
  · simpa [h] using hb
  · have h' : startInside start selected = false := by simpa using h
    simp only [h', Bool.false_eq_true, if_false]
    exact scanStart_accOK values msl minv selected start b h'
      (List.mem_range.mp hstart) hb

/-- A round that produces a segment produces a valid candidate. -/
lemma scanRound_some (values : List ℚ) (msl : Int) (minv : ℚ)
    (selected : List (Nat × Nat)) (sc : ℚ) (c : Nat × Nat)
    (h : scanRound values msl minv selected = (sc, some c)) :
    candOK values msl minv selected sc c := by
  have h2 := scanRound_accOK values msl minv selected
  rw [h] at h2
  exact h2.2 c rfl

/-- A round in which every window whose shape a round can enumerate scores at
most the floor produces no segment (first-round form: nothing selected yet). -/
lemma scanRound_none (values : List ℚ) (msl : Int) (minv : ℚ)
    (h : ∀ s e : Nat, s < e → e ≤ values.length → ((e : Int) - (s : Int)) ≤ msl →
      segSum values s e ≤ minv) :
    scanRound values msl minv [] = (minv, none) := by
  unfold scanRound
  refine List.foldlRecOn (motive := fun x => x = (minv, none)) _ _ _ rfl ?_
  intro b hb start hstart
  have hsN := List.mem_range.mp hstart
  have h0 : startInside start ([] : List (Nat × Nat)) = false := rfl
  simp only [h0, Bool.false_eq_true, if_false]
  unfold scanStart
  refine List.foldlRecOn (motive := fun x => x = (minv, none)) _ _ _ hb ?_
  intro b' hb' len hlen
  rw [List.mem_range'_1] at hlen
  obtain ⟨h1, h2⟩ := hlen
  have he : endInside (start + len) ([] : List (Nat × Nat)) = false := rfl
  simp only [he, Bool.false_eq_true, if_false]
  have hle : segSum values start (start + len) ≤ minv :=
    h start (start + len) (by omega) (by omega) (by omega)
  rw [hb']
  rw [if_neg (not_lt.mpr hle)]

/-! ### The loop invariant -/

lemma startInside_eq_false (x : Nat) (segs : List (Nat × Nat)) :
    startInside x segs = false ↔ ∀ s ∈ segs, ¬(s.1 ≤ x ∧ x < s.2) := by
  simp [startInside, List.any_eq_false, Decidable.not_and_iff_or_not, imp_iff_not_or]

lemma endInside_eq_false (x : Nat) (segs : List (Nat × Nat)) :
    endInside x segs = false ↔ ∀ s ∈ segs, ¬(s.1 < x ∧ x ≤ s.2) := by
  simp [endInside, List.any_eq_false, Decidable.not_and_iff_or_not, imp_iff_not_or]

/-- Relation between a segment `s` accepted in an earlier round and a segment
`t` accepted later: `t`'s start was not inside `s` and `t`'s end did not fall
inside `s` (nor on its closing boundary). This is all the two overlap filters
of the source enforce; it does NOT make `s` and `t` disjoint, since `t` may
strictly contain `s`. -/
def sep (s t : Nat × Nat) : Prop :=
  ¬(s.1 ≤ t.1 ∧ t.1 < s.2) ∧ ¬(s.1 < t.2 ∧ t.2 ≤ s.2)

lemma sep_of_filters (selected : List (Nat × Nat)) (c : Nat × Nat)
    (h1 : startInside c.1 selected = false) (h2 : endInside c.2 selected = false) :
    ∀ s ∈ selected, sep s c := by
  intro s hs
  exact ⟨(startInside_eq_false c.1 selected).mp h1 s hs,
    (endInside_eq_false c.2 selected).mp h2 s hs⟩

/-- Invariant carried by the selection loop, relating the selected segments
(in discovery order) to their recorded scores. -/
structure LoopInv (values : List ℚ) (msl : Int) (minv : ℚ)
    (selected : List (Nat × Nat)) (scores : List ℚ) : Prop where
  scores_eq : scores = selected.map (fun c => segSum values c.1 c.2)
  ok : ∀ c ∈ selected, c.1 < c.2 ∧ c.2 ≤ values.length ∧
    ((c.2 : Int) - (c.1 : Int)) ≤ msl
  score_gt : ∀ c ∈ selected, minv < segSum values c.1 c.2
  pw : selected.Pairwise sep

lemma loopInv_step (values : List ℚ) (msl : Int) (minv : ℚ)
    (selected : List (Nat × Nat)) (scores : List ℚ) (sc : ℚ) (c : Nat × Nat)
    (h : LoopInv values msl minv selected scores)
    (hsc : scanRound values msl minv selected = (sc, some c)) :
    LoopInv values msl minv (selected ++ [c]) (scores ++ [sc]) := by
  obtain ⟨hlt, hle, hmsl, hstart, hend, hseq, hgt⟩ :=
    scanRound_some values msl minv selected sc c hsc
  refine ⟨?_, ?_, ?_, ?_⟩
  · rw [h.scores_eq, List.map_append, List.map_singleton, hseq]
  · intro x hx
    rcases List.mem_append.mp hx with hx | hx
    · exact h.ok x hx
    · rw [List.mem_singleton] at hx
      subst hx
      exact ⟨hlt, hle, hmsl⟩
  · intro x hx
    rcases List.mem_append.mp hx with hx | hx
    · exact h.score_gt x hx
    · rw [List.mem_singleton] at hx
      subst hx
      rw [← hseq]
      exact hgt
  · rw [List.pairwise_append]
    refine ⟨h.pw, List.pairwise_singleton _ _, ?_⟩
    intro s hs t ht
    rw [List.mem_singleton] at ht
    subst ht
    exact sep_of_filters selected t hstart hend s hs

lemma selectLoop_inv (values : List ℚ) (msl tml : Int) (minv : ℚ) (fuel : Nat) :
    ∀ (selected : List (Nat × Nat)) (scores : List ℚ) (total : Nat),
      LoopInv values msl minv selected scores →
      LoopInv values msl minv
        (selectLoop values msl tml minv fuel selected scores total).1
        (selectLoop values msl tml minv fuel selected scores total).2 := by
  induction fuel with
  | zero =>
    intro selected scores total h
    simpa only [selectLoop] using h
  | succ fuel ih =>
    intro selected scores total h
    rw [selectLoop]
    split
    · rcases hsc : scanRound values msl minv selected with ⟨sc, co⟩
      rcases co with _ | c
      · simpa only using h
      · exact ih (selected ++ [c]) (scores ++ [sc]) (total + (c.2 - c.1))
          (loopInv_step values msl minv selected scores sc c h hsc)
    · exact h

/-- The invariant holds of the discovery-order output of the loop. -/
lemma discovered_inv (values : List ℚ) (msl tml : Int) (minv : ℚ) :
    LoopInv values msl minv (discovered values msl tml minv).1
      (discovered values msl tml minv).2 :=
  selectLoop_inv values msl tml minv (tml.toNat + 1) [] [] 0
    ⟨rfl, fun c hc => absurd hc (List.not_mem_nil c),
      fun c hc => absurd hc (List.not_mem_nil c), List.Pairwise.nil⟩

/-! ### Covered length, round count, and termination of the loop -/

/-- Total covered length of a list of segments: the sum of `end - start`. -/
def sumLen (l : List (Nat × Nat)) : Nat :=
  (l.map (fun c => c.2 - c.1)).sum

lemma sumLen_append (l : List (Nat × Nat)) (c : Nat × Nat) :
    sumLen (l ++ [c]) = sumLen l + (c.2 - c.1) := by
  simp [sumLen]

/-- The loop never pushes the covered length past
`total_max_length + max_segment_length - 1`: a round starts only while the
covered length is strictly below `total_max_length` and adds at most
`max_segment_length`. -/
lemma selectLoop_sum (values : List ℚ) (msl tml : Int) (minv : ℚ) (fuel : Nat) :
    ∀ (selected : List (Nat × Nat)) (scores : List ℚ) (total : Nat),
      total = sumLen selected →
      ((sumLen (selectLoop values msl tml minv fuel selected scores total).1 : Nat) : Int) ≤
        max (total : Int) (tml + msl - 1) := by
  induction fuel with
  | zero =>
    intro selected scores total ht
    simp only [selectLoop]
    rw [← ht]
    exact le_max_left _ _
  | succ fuel ih =>
    intro selected scores total ht
    rw [selectLoop]
    split
    · rename_i hcond
      rcases hsc : scanRound values msl minv selected with ⟨sc, co⟩
      rcases co with _ | c
      · simp only
        rw [← ht]
        exact le_max_left _ _
      · obtain ⟨hlt, _, hmsl, _, _, _, _⟩ :=
          scanRound_some values msl minv selected sc c hsc
        have ht' : total + (c.2 - c.1) = sumLen (selected ++ [c]) := by
          rw [sumLen_append, ht]
        have hrec := ih (selected ++ [c]) (scores ++ [sc]) (total + (c.2 - c.1)) ht'
        refine le_trans hrec ?_
        omega
    · simp only
      rw [← ht]
      exact le_max_left _ _

/-- Each productive round consumes at least one unit of the remaining budget
`(total_max_length - total).toNat`, so the loop adds at most that many more
segments. -/
lemma selectLoop_len (values : List ℚ) (msl tml : Int) (minv : ℚ) (fuel : Nat) :
    ∀ (selected : List (Nat × Nat)) (scores : List ℚ) (total : Nat),
      (selectLoop values msl tml minv fuel selected scores total).1.length ≤
        selected.length + (tml - (total : Int)).toNat := by
  induction fuel with
  | zero =>
    intro selected scores total
    simp only [selectLoop]
    exact Nat.le_add_right _ _
  | succ fuel ih =>
    intro selected scores total
    rw [selectLoop]
    split
    · rename_i hcond
      rcases hsc : scanRound values msl minv selected with ⟨sc, co⟩
      rcases co with _ | c
      · simp only
        exact Nat.le_add_right _ _
      · obtain ⟨hlt, _, _, _, _, _, _⟩ :=
          scanRound_some values msl minv selected sc c hsc
        have hrec := ih (selected ++ [c]) (scores ++ [sc]) (total + (c.2 - c.1))
        rw [List.length_append, List.length_singleton] at hrec
        refine le_trans hrec ?_
        omega
    · simp only
      exact Nat.le_add_right _ _

/-- Termination of the original `while` loop, in fuel form: any two fuel
amounts strictly larger than the remaining budget `(tml - total).toNat`
produce the same result, i.e. the loop has stopped by then. -/
lemma selectLoop_stable (values : List ℚ) (msl tml : Int) (minv : ℚ) :
    ∀ (f g : Nat) (selected : List (Nat × Nat)) (scores : List ℚ) (total : Nat),
      (tml - (total : Int)).toNat < f → (tml - (total : Int)).toNat < g →
      selectLoop values msl tml minv f selected scores total =
        selectLoop values msl tml minv g selected scores total := by
  intro f
  induction f with
  | zero =>
    intro g selected scores total h1 _
    omega
  | succ f ih =>
    intro g selected scores total h1 h2
    rcases g with _ | g
    · omega
    · by_cases hcond : ((total : Nat) : Int) < tml
      · rw [selectLoop, selectLoop, if_pos hcond, if_pos hcond]
        rcases hsc : scanRound values msl minv selected with ⟨sc, co⟩
        rcases co with _ | c
        · rfl
        · obtain ⟨hlt, _, _, _, _, _, _⟩ :=
            scanRound_some values msl minv selected sc c hsc
          exact ih g (selected ++ [c]) (scores ++ [sc]) (total + (c.2 - c.1))
            (by omega) (by omega)
      · rw [selectLoop, selectLoop, if_neg hcond, if_neg hcond]

/-! ### Bridging lemmas between the returned result and the discovery order -/

lemma find_best_segments_eq (values : List ℚ) (msl tml : Int) (minv : ℚ) :
    find_best_segments values msl tml minv =
      ((discovered values msl tml minv).1.insertionSort (fun a b => a.1 ≤ b.1),
        (discovered values msl tml minv).2) := rfl

lemma find_best_segments_perm (values : List ℚ) (msl tml : Int) (minv : ℚ) :
    (find_best_segments values msl tml minv).1.Perm
      (discovered values msl tml minv).1 := by
  rw [find_best_segments_eq]
  exact List.perm_insertionSort _ _

/-- What `sep` allows for two accepted segments: they are disjoint (possibly
adjacent) or one strictly contains the other. -/
lemma sep_cases (s t : Nat × Nat) (h : sep s t) :
    s.2 ≤ t.1 ∨ t.2 ≤ s.1 ∨ (s.1 < t.1 ∧ t.2 < s.2) ∨ (t.1 < s.1 ∧ s.2 < t.2) := by
  obtain ⟨h1, h2⟩ := h
  omega

/-! ### Claim theorems -/

/-- **C1, counterexample.** The claim "no chunk index belongs to two returned
segments" is false: on `values = [-1, 10, -1]`, `max_segment_length = 3`,
`total_max_length = 10`, `min_segment_value = 1/1000`, the selector returns
the segments `(0, 3)` and `(1, 2)`, and chunk index `1` lies in both
(`0 ≤ 1 < 3` and `1 ≤ 1 < 2`): the second-round candidate `(0, 3)` strictly
contains the first-round winner `(1, 2)` because neither of its endpoints
falls inside `(1, 2)`. -/
theorem C1_counterexample :
    (find_best_segments [-1, 10, -1] 3 10 (1/1000)).1 = [(0, 3), (1, 2)] ∧
    ((0 : Nat) ≤ 1 ∧ (1 : Nat) < 3) ∧ ((1 : Nat) ≤ 1 ∧ (1 : Nat) < 2) :=
  ⟨by decide, ⟨by decide, by decide⟩, ⟨by decide, by decide⟩⟩

/-- **C1, amended.** Any two distinct returned segments are either disjoint
(adjacency allowed) or one strictly contains the other; pairwise disjointness
itself does not hold, since a later candidate may strictly contain an earlier
accepted segment (only a start inside an accepted range, or an end in its
half-open interior extended to the right boundary, is filtered out). -/
theorem C1_amended_disjoint_or_nested (values : List ℚ) (msl tml : Int) (minv : ℚ)
    (s t : Nat × Nat) (hs : s ∈ (find_best_segments values msl tml minv).1)
    (ht : t ∈ (find_best_segments values msl tml minv).1) (hne : s ≠ t) :
    s.2 ≤ t.1 ∨ t.2 ≤ s.1 ∨ (s.1 < t.1 ∧ t.2 < s.2) ∨ (t.1 < s.1 ∧ s.2 < t.2) := by
  have hperm := find_best_segments_perm values msl tml minv
  have hinv := discovered_inv values msl tml minv
  have hpw : (discovered values msl tml minv).1.Pairwise
      (fun s t => s.2 ≤ t.1 ∨ t.2 ≤ s.1 ∨ (s.1 < t.1 ∧ t.2 < s.2) ∨
        (t.1 < s.1 ∧ s.2 < t.2)) :=
    hinv.pw.imp (fun h => sep_cases _ _ h)
  have hpw2 := (hperm.pairwise_iff (fun h => by omega)).mpr hpw
  exact hpw2.forall (fun a b h => by omega) hs ht hne

/-- **C1, witness.** The amended theorem applied at the counterexample input
to the pair `(0, 3)`, `(1, 2)`: the containment disjunct holds. -/
theorem C1_witness :
    ((0, 3) ∈ (find_best_segments [-1, 10, -1] 3 10 (1/1000)).1 ∧
      (1, 2) ∈ (find_best_segments [-1, 10, -1] 3 10 (1/1000)).1 ∧
      ((0, 3) : Nat × Nat) ≠ (1, 2)) ∧
    ((3 : Nat) ≤ 1 ∨ (2 : Nat) ≤ 0 ∨ ((0 : Nat) < 1 ∧ (2 : Nat) < 3) ∨
      ((1 : Nat) < 0 ∧ (3 : Nat) < 2)) :=
  ⟨⟨by decide, by decide, by decide⟩,
    C1_amended_disjoint_or_nested [-1, 10, -1] 3 10 (1/1000) (0, 3) (1, 2)
      (by decide) (by decide) (by decide)⟩

/-- **C2, counterexample.** The claim "the sum of returned segment lengths is
at most `total_max_length`" is false: on six chunks of value 1 with
`max_segment_length = 3`, `total_max_length = 5`, `min_segment_value = 1/10`,
the selector returns `(0, 3)` and `(3, 6)` with total covered length `6 > 5`:
the second round starts while the covered length (3) is still below 5 and
then adds 3 more. -/
theorem C2_counterexample :
    find_best_segments [1, 1, 1, 1, 1, 1] 3 5 (1/10) = ([(0, 3), (3, 6)], [3, 3]) ∧
    sumLen (find_best_segments [1, 1, 1, 1, 1, 1] 3 5 (1/10)).1 = 6 ∧
    ¬((6 : Int) ≤ 5) :=
  ⟨by decide, by decide, by decide⟩

/-- **C2, amended.** The sum of the lengths of the returned segments is at
most `total_max_length + max_segment_length - 1` (and 0 when that bound is
negative): a round starts only while the covered length is strictly below
`total_max_length` and each accepted segment adds at most
`max_segment_length`. -/
theorem C2_amended_sum_bound (values : List ℚ) (msl tml : Int) (minv : ℚ) :
    ((sumLen (find_best_segments values msl tml minv).1 : Nat) : Int) ≤
      max 0 (tml + msl - 1) := by
  have h := selectLoop_sum values msl tml minv (tml.toNat + 1) [] [] 0 rfl
  have h' : ((sumLen (discovered values msl tml minv).1 : Nat) : Int) ≤
      max (((0 : Nat) : Nat) : Int) (tml + msl - 1) := h
  have hperm := find_best_segments_perm values msl tml minv
  have hsum : sumLen (find_best_segments values msl tml minv).1 =
      sumLen (discovered values msl tml minv).1 := by
    unfold sumLen
    exact (hperm.map (fun c : Nat × Nat => c.2 - c.1)).sum_eq
  rw [hsum]
  omega

/-- **C3, counterexample.** On `values = [0.1, 0.1, 0.9, 0.9, 0.1]`,
`max_segment_length = 3`, `total_max_length = 5`, `min_segment_value = 0.15`,
the first greedy round does NOT select `(2, 4)` (score `1.8`): the discovery
list is `[(1, 4)]`, i.e. the first round selects `(1, 4)` (score
`0.1 + 0.9 + 0.9 = 1.9 > 1.8`), and no second segment is ever found. -/
theorem C3_counterexample :
    (discovered [1/10, 1/10, 9/10, 9/10, 1/10] 3 5 (3/20)).1 = [(1, 4)] ∧
    ((1, 4) : Nat × Nat) ≠ (2, 4) :=
  ⟨by decide, by decide⟩

/-- **C3, amended.** Under exact arithmetic, on the scenario input the first
round selects `(1, 4)` with score `19/10`, and the second round finds no
candidate (every admissible window scores at most the floor `3/20`), so the
result is `([(1, 4)], [19/10])`. -/
theorem C3_amended_trace :
    find_best_segments [1/10, 1/10, 9/10, 9/10, 1/10] 3 5 (3/20) =
      ([(1, 4)], [19/10]) := by
  decide

/-- **C4, counterexample.** The claim that the selector "fails fast with a
distinguishable InvalidArgument failure" on non-positive
`max_segment_length` is false for the code: the spec-modelled contract
`select_segments_spec` demands an `InvalidArgument` error at
`max_segment_length = 0`, but `find_best_segments` returns the normal empty
result `([], [])` there. -/
theorem C4_counterexample :
    select_segments_spec [1] 0 5 0 = Except.error SelectorError.invalidArgument ∧
    find_best_segments [1] 0 5 0 = ([], []) :=
  ⟨rfl, by decide⟩

/-- **C4, amended.** If `max_segment_length` or `total_max_length` is
non-positive, the selector terminates immediately with the normal empty
result `([], [])`: it produces no distinguishable failure of any kind (and
does not loop). -/
theorem C4_amended_no_failure (values : List ℚ) (msl tml : Int) (minv : ℚ)
    (h : msl ≤ 0 ∨ tml ≤ 0) :
    find_best_segments values msl tml minv = ([], []) := by
  have hmain : selectLoop values msl tml minv (tml.toNat + 1) [] [] 0 = ([], []) := by
    rcases h with h | h
    · by_cases ht : ((0 : Nat) : Int) < tml
      · have hnone : scanRound values msl minv [] = (minv, none) :=
          scanRound_none values msl minv (fun s e hse hle hmsl => by exfalso; omega)
        rw [selectLoop, if_pos ht, hnone]
      · rw [selectLoop, if_neg ht]
    · have ht : ¬((0 : Nat) : Int) < tml := by omega
      rw [selectLoop, if_neg ht]
  rw [find_best_segments_eq]
  unfold discovered
  rw [hmain]
  rfl

/-- **C4, witness.** The amended theorem applied at
`max_segment_length = 0`, `total_max_length = 5`. -/
theorem C4_witness :
    ((0 : Int) ≤ 0 ∨ (5 : Int) ≤ 0) ∧ find_best_segments [1] 0 5 0 = ([], []) :=
  ⟨Or.inl le_rfl, C4_amended_no_failure [1] 0 5 0 (Or.inl le_rfl)⟩

/-- **C5.** Every returned segment's recorded score is the sum of the values
over its half-open range, is strictly greater than `min_segment_value`, and
appears in the returned scores list (a candidate scoring exactly the floor is
never accepted, since acceptance requires a strict improvement over the
round's initial best score `min_segment_value`). -/
theorem C5_scores (values : List ℚ) (msl tml : Int) (minv : ℚ) (c : Nat × Nat)
    (h : c ∈ (find_best_segments values msl tml minv).1) :
    minv < segSum values c.1 c.2 ∧
    segSum values c.1 c.2 ∈ (find_best_segments values msl tml minv).2 := by
  have hperm := find_best_segments_perm values msl tml minv
  have hinv := discovered_inv values msl tml minv
  have hd : c ∈ (discovered values msl tml minv).1 := hperm.mem_iff.mp h
  refine ⟨hinv.score_gt c hd, ?_⟩
  have h2 : (find_best_segments values msl tml minv).2 =
      (discovered values msl tml minv).1.map (fun x => segSum values x.1 x.2) :=
    hinv.scores_eq
  rw [h2]
  exact List.mem_map_of_mem _ hd

/-- **C5, witness.** On `values = [5]`, `max_segment_length = 1`,
`total_max_length = 1`, `min_segment_value = 0`, the returned segment
`(0, 1)` has score `5 > 0` recorded in the scores list. -/
theorem C5_witness :
    ((0, 1) ∈ (find_best_segments [5] 1 1 0).1) ∧
    ((0 : ℚ) < segSum [5] 0 1 ∧ segSum [5] 0 1 ∈ (find_best_segments [5] 1 1 0).2) :=
  ⟨by decide, C5_scores [5] 1 1 0 (0, 1) (by decide)⟩

/-- **C6.** Every returned segment `(start, end)` satisfies
`0 ≤ start < end ≤ N` (with `N` the number of chunks) and
`end - start ≤ max_segment_length`. -/
theorem C6_segment_bounds (values : List ℚ) (msl tml : Int) (minv : ℚ)
    (c : Nat × Nat) (h : c ∈ (find_best_segments values msl tml minv).1) :
    0 ≤ c.1 ∧ c.1 < c.2 ∧ c.2 ≤ values.length ∧
      ((c.2 : Int) - (c.1 : Int)) ≤ msl := by
  have hperm := find_best_segments_perm values msl tml minv
  have hinv := discovered_inv values msl tml minv
  have hd : c ∈ (discovered values msl tml minv).1 := hperm.mem_iff.mp h
  obtain ⟨h1, h2, h3⟩ := hinv.ok c hd
  exact ⟨Nat.zero_le _, h1, h2, h3⟩

/-- **C6, witness.** The bounds at the returned segment `(0, 1)` of the
single-chunk scenario. -/
theorem C6_witness :
    ((0, 1) ∈ (find_best_segments [5] 1 1 0).1) ∧
    (0 ≤ (0 : Nat) ∧ (0 : Nat) < 1 ∧ 1 ≤ ([(5 : ℚ)] : List ℚ).length ∧
      ((1 : Int) - (0 : Int)) ≤ 1) :=
  ⟨by decide, C6_segment_bounds [5] 1 1 0 (0, 1) (by decide)⟩

/-- **C7.** The returned segment list is strictly sorted by start position
(hence sorted ascending with no duplicates), it is a permutation of the
discovery-order list, and the returned scores list is exactly the
discovery-order scores (the sum of each segment found, in the order found) —
it is not re-paired with the segments after sorting. -/
theorem C7_sorted_scores_in_discovery_order (values : List ℚ) (msl tml : Int)
    (minv : ℚ) :
    (find_best_segments values msl tml minv).1.Pairwise (fun s t => s.1 < t.1) ∧
    (find_best_segments values msl tml minv).1.Nodup ∧
    (find_best_segments values msl tml minv).1.Perm
      (discovered values msl tml minv).1 ∧
    (find_best_segments values msl tml minv).2 =
      (discovered values msl tml minv).1.map (fun c => segSum values c.1 c.2) := by
  have hperm := find_best_segments_perm values msl tml minv
  have hinv := discovered_inv values msl tml minv
  haveI inst1 : IsTotal (Nat × Nat) (fun a b => a.1 ≤ b.1) :=
    ⟨fun a b => Nat.le_total a.1 b.1⟩
  haveI inst2 : IsTrans (Nat × Nat) (fun a b => a.1 ≤ b.1) :=
    ⟨fun a b c h1 h2 => le_trans h1 h2⟩
  have hsorted : (find_best_segments values msl tml minv).1.Pairwise
      (fun s t => s.1 ≤ t.1) :=
    List.sorted_insertionSort (fun a b : Nat × Nat => a.1 ≤ b.1)
      (discovered values msl tml minv).1
  have hne : (discovered values msl tml minv).1.Pairwise (fun s t => s.1 ≠ t.1) := by
    refine hinv.pw.imp_of_mem ?_
    intro a b ha hb hsep
    have hok := hinv.ok a ha
    obtain ⟨h1, h2⟩ := hsep
    omega
  have hne2 : (find_best_segments values msl tml minv).1.Pairwise
      (fun s t => s.1 ≠ t.1) :=
    (hperm.pairwise_iff (fun h => Ne.symm h)).mpr hne
  have hlt : (find_best_segments values msl tml minv).1.Pairwise
      (fun s t => s.1 < t.1) :=
    (hsorted.and hne2).imp (fun h => lt_of_le_of_ne h.1 h.2)
  refine ⟨hlt, ?_, hperm, hinv.scores_eq⟩
  exact hlt.imp (fun h => by intro he; rw [he] at h; exact lt_irrefl _ h)

/-- **C8.** If `values` is empty, or if no window of admissible shape scores
strictly above `min_segment_value`, the selector returns the empty result
`([], [])` (a normal value, not an error). -/
theorem C8_empty_result (values : List ℚ) (msl tml : Int) (minv : ℚ)
    (h : values = [] ∨ ∀ s e : Nat, s < e → e ≤ values.length →
      ((e : Int) - (s : Int)) ≤ msl → segSum values s e ≤ minv) :
    find_best_segments values msl tml minv = ([], []) := by
  have hall : ∀ s e : Nat, s < e → e ≤ values.length →
      ((e : Int) - (s : Int)) ≤ msl → segSum values s e ≤ minv := by
    rcases h with h | h
    · intro s e hse hle _
      subst h
      exfalso
      simp at hle
      omega
    · exact h
  have hnone : scanRound values msl minv [] = (minv, none) :=
    scanRound_none values msl minv hall
  have hmain : selectLoop values msl tml minv (tml.toNat + 1) [] [] 0 = ([], []) := by
    by_cases ht : ((0 : Nat) : Int) < tml
    · rw [selectLoop, if_pos ht, hnone]
    · rw [selectLoop, if_neg ht]
  rw [find_best_segments_eq]
  unfold discovered
  rw [hmain]
  rfl

/-- **C8, witness.** The empty-input case: `values = []` yields `([], [])`. -/
theorem C8_witness :
    (([] : List ℚ) = [] ∨ ∀ s e : Nat, s < e → e ≤ ([] : List ℚ).length →
      ((e : Int) - (s : Int)) ≤ 1 → segSum [] s e ≤ 0) ∧
    find_best_segments [] 1 1 0 = ([], []) :=
  ⟨Or.inl rfl, C8_empty_result [] 1 1 0 (Or.inl rfl)⟩

/-- **C9.** The selection loop terminates on every input: running it with any
fuel beyond `total_max_length.toNat + 1` changes nothing (the loop has
already stopped, because every productive round adds at least one covered
chunk and a round starts only while the covered length is below
`total_max_length`), and the number of segments found — the number of
productive rounds — is at most `total_max_length.toNat`. -/
theorem C9_terminates (values : List ℚ) (msl tml : Int) (minv : ℚ) (extra : Nat) :
    selectLoop values msl tml minv (tml.toNat + 1 + extra) [] [] 0 =
      discovered values msl tml minv ∧
    (find_best_segments values msl tml minv).1.length ≤ tml.toNat := by
  constructor
  · unfold discovered
    exact selectLoop_stable values msl tml minv (tml.toNat + 1 + extra)
      (tml.toNat + 1) [] [] 0 (by omega) (by omega)
  · have hlen : (discovered values msl tml minv).1.length ≤
        ([] : List (Nat × Nat)).length + (tml - ((0 : Nat) : Int)).toNat :=
      selectLoop_len values msl tml minv (tml.toNat + 1) [] [] 0
    have hperm := find_best_segments_perm values msl tml minv
    rw [hperm.length_eq]
    simpa using hlen

/-- **C10, counterexample.** As stated ("for every input with
`max_segment_length ≥ 1`"), the strict bound fails for negative
`total_max_length`: at `values = []`, `max_segment_length = 1`,
`total_max_length = -1` the selector returns no segments, and
`0 < -1 + 1` is false. -/
theorem C10_counterexample :
    find_best_segments [] 1 (-1) 0 = ([], []) ∧
    sumLen (find_best_segments [] 1 (-1) 0).1 = 0 ∧
    ¬((0 : Int) < (-1) + 1) :=
  ⟨by decide, by decide, by decide⟩

/-- **C10, amended.** For `max_segment_length ≥ 1` and `total_max_length ≥ 0`,
the sum of returned segment lengths is strictly less than
`total_max_length + max_segment_length`: a round starts only while the
covered length is below `total_max_length` and adds at most
`max_segment_length`. -/
theorem C10_amended_invariant (values : List ℚ) (msl tml : Int) (minv : ℚ)
    (h1 : 1 ≤ msl) (h2 : 0 ≤ tml) :
    ((sumLen (find_best_segments values msl tml minv).1 : Nat) : Int) < tml + msl := by
  have h := selectLoop_sum values msl tml minv (tml.toNat + 1) [] [] 0 rfl
  have h' : ((sumLen (discovered values msl tml minv).1 : Nat) : Int) ≤
      max (((0 : Nat) : Nat) : Int) (tml + msl - 1) := h
  have hperm := find_best_segments_perm values msl tml minv
  have hsum : sumLen (find_best_segments values msl tml minv).1 =
      sumLen (discovered values msl tml minv).1 := by
    unfold sumLen
    exact (hperm.map (fun c : Nat × Nat => c.2 - c.1)).sum_eq
  rw [hsum]
  omega

/-- **C10, witness.** The amended bound at `max_segment_length = 1`,
`total_max_length = 0`: no segments, and `0 < 0 + 1`. -/
theorem C10_witness :
    ((1 : Int) ≤ 1 ∧ (0 : Int) ≤ 0) ∧
    ((sumLen (find_best_segments [] 1 0 0).1 : Nat) : Int) < 0 + 1 :=
  ⟨⟨le_rfl, le_rfl⟩, C10_amended_invariant [] 1 0 0 le_rfl le_rfl⟩
